import Mathlib

/-!
Verification development for the fidelity-evaluation code of the
`xai-counterfactuals-on-blackbox` notebook
(`src/notebooks/XAI_initial.ipynb`, cells defining `fidelity_metric` and
`compute_average_fidelity`).

Shallow embedding conventions:

* numeric feature values and model outputs are `ℚ`;
* an `Instance` is a `List ℚ`, the ambient `data.feature_names` list the
  notebook reads globally is passed explicitly as `featureNames : List String`;
* a Python dict of importance scores (`explanation`) is its item list in
  iteration order, `List (String × ℚ)` (keys distinct as for a Python dict);
* Python exceptions are an `Except PyError` result: `list.index` raising
  `ValueError` on a missing feature name, and out-of-range element access
  raising `IndexError`;
* `np.mean` of an empty list is NaN, modelled by `PyFloat.nan`;
* Python's `sorted(..., key=lambda x: abs(x[1]), reverse=True)` is a stable
  descending sort, embedded as insertion sort with the reflexive relation
  "left's key is at least right's key", which computes exactly the stable
  descending reordering;
* the Python slice `l[:n]` is `pySliceTo`, including its negative-`n`
  semantics (`l[:-m]` drops the last `m` elements).
-/

namespace XAI

/-- Python exceptions the notebook's fidelity code can raise:
`valueError` for `list(data.feature_names).index(feature)` on a name absent
from the list, `indexError` for an out-of-range element access. -/
inductive PyError where
  | valueError
  | indexError
  deriving DecidableEq

/-- A numpy scalar result: either an ordinary rational value, or NaN
(which `np.mean` returns on an empty list). -/
inductive PyFloat where
  | nan
  | val (q : ℚ)
  deriving DecidableEq

/-- Python slice `l[:n]` for an arbitrary integer `n`: for `n ≥ 0` the first
`n` elements, for `n < 0` all but the last `|n|` elements (empty if `|n|`
exceeds the length). -/
def pySliceTo {α : Type} (l : List α) (n : ℤ) : List α :=
  if 0 ≤ n then l.take n.toNat else l.take (l.length - (-n).toNat)

/-- The notebook's `sorted(explanation.items(), key=lambda x: abs(x[1]),
reverse=True)`: the stable descending sort of the importance items by
absolute score.  Insertion sort with the weak relation `|b.2| ≤ |a.2|`
inserts each element before the first equal-or-smaller key, which yields
exactly the stable descending order Python's `sorted` guarantees. -/
def sortByAbsDesc (l : List (String × ℚ)) : List (String × ℚ) :=
  l.insertionSort (fun a b => |b.2| ≤ |a.2|)

/-- The notebook's `features_to_remove = [feat for feat, _ in
sorted_features[:num_features]]`: identifiers of the top-`num_features`
importance entries. -/
def features_to_remove (explanation : List (String × ℚ)) (num_features : ℤ) :
    List String :=
  (pySliceTo (sortByAbsDesc explanation) num_features).map Prod.fst

/-- Python's `list.index` as used by the notebook on
`list(data.feature_names)`: position of the first occurrence, `none` (a
raised `ValueError`) when the element is absent. -/
def listIndex (names : List String) (feat : String) : Option ℕ :=
  match names with
  | [] => none
  | a :: rest => if a = feat then some 0 else (listIndex rest feat).map (· + 1)

/-- The perturbation loop of `fidelity_metric`: for each selected feature
name, `idx = list(data.feature_names).index(feature)` (raising `ValueError`
when absent) and `instance_perturbed[idx] = baseline[idx]` where `baseline =
np.zeros_like(instance)` (so the written value is `0`; the element access
raises `IndexError` when `idx` is out of the instance's range). -/
def perturbFeatures (featureNames : List String) (inst : List ℚ)
    (feats : List String) : Except PyError (List ℚ) :=
  match feats with
  | [] => .ok inst
  | feat :: rest =>
    match listIndex featureNames feat with
    | none => .error .valueError
    | some idx =>
      if idx < inst.length then
        perturbFeatures featureNames (inst.set idx 0) rest
      else .error .indexError

/-- The notebook's `fidelity_metric(model, instance, explanation,
num_features)`: perturb a copy of the instance at the top-`num_features`
features (by absolute importance, set to the zero baseline) and return
`original_pred - perturbed_pred`, the model being an opaque
instance-to-probability map. -/
def fidelity_metric (featureNames : List String) (model : List ℚ → ℚ)
    (inst : List ℚ) (explanation : List (String × ℚ)) (num_features : ℤ) :
    Except PyError ℚ :=
  match perturbFeatures featureNames inst
      (features_to_remove explanation num_features) with
  | .error e => .error e
  | .ok instance_perturbed => .ok (model inst - model instance_perturbed)

/-- numpy's `np.mean` on a list of rationals: NaN when the list is empty,
otherwise the arithmetic mean. -/
def npMean (l : List ℚ) : PyFloat :=
  if l.length = 0 then .nan else .val (l.sum / l.length)

/-- The loop body of `compute_average_fidelity` over a list of sample
indices: `instance = X[i]` (raising `IndexError` out of range), `exp =
explainer.explain_instance(instance, model_predict, num_features=5)` — the
literal `5` from the notebook — then `fidelity_metric` with the function's
own `num_features` argument, collecting the scores in order and stopping at
the first exception. -/
def fidelityLoop (featureNames : List String) (model : List ℚ → ℚ)
    (X : List (List ℚ)) (explainer : List ℚ → ℕ → List (String × ℚ))
    (num_features : ℤ) : List ℕ → Except PyError (List ℚ)
  | [] => .ok []
  | i :: rest =>
    match X[i]? with
    | none => .error .indexError
    | some inst =>
      match fidelity_metric featureNames model inst (explainer inst 5)
          num_features with
      | .error e => .error e
      | .ok q =>
        match fidelityLoop featureNames model X explainer num_features rest with
        | .error e => .error e
        | .ok qs => .ok (q :: qs)

/-- The notebook's `compute_average_fidelity(model, X, explainer,
num_samples, num_features)`: run the per-instance loop for `i in
range(num_samples)` and return `np.mean(fidelities)`. -/
def compute_average_fidelity (featureNames : List String)
    (model : List ℚ → ℚ) (X : List (List ℚ))
    (explainer : List ℚ → ℕ → List (String × ℚ))
    (num_samples : ℕ) (num_features : ℤ) : Except PyError PyFloat :=
  match fidelityLoop featureNames model X explainer num_features
      (List.range num_samples) with
  | .error e => .error e
  | .ok fidelities => .ok (npMean fidelities)

/-- The linear model `f(x) = w · x` of the spec's monotonic-sanity scenario. -/
def dotProduct (w x : List ℚ) : ℚ :=
  ((w.zip x).map fun p => p.1 * p.2).sum

/-- Elementwise product `w * x`, the importance scores of the spec's
monotonic-sanity scenario. -/
def mulPointwise (w x : List ℚ) : List ℚ :=
  (w.zip x).map fun p => p.1 * p.2

/-! Helper lemmas about `listIndex`. -/

lemma listIndex_nil (feat : String) : listIndex [] feat = none := rfl

lemma listIndex_cons (a : String) (rest : List String) (feat : String) :
    listIndex (a :: rest) feat =
      if a = feat then some 0 else (listIndex rest feat).map (· + 1) := rfl

lemma listIndex_lt_length (names : List String) (feat : String) :
    ∀ i : ℕ, listIndex names feat = some i → i < names.length := by
  induction names with
  | nil => intro i h; simp [listIndex_nil] at h
  | cons a rest ih =>
    intro i h
    rw [listIndex_cons] at h
    by_cases ha : a = feat
    · rw [if_pos ha] at h
      have : i = 0 := (Option.some.inj h).symm
      simp [this]
    · rw [if_neg ha, Option.map_eq_some'] at h
      obtain ⟨j, hj, rfl⟩ := h
      have := ih j hj
      simp only [List.length_cons]
      omega

lemma listIndex_eq_none (names : List String) (feat : String)
    (h : feat ∉ names) : listIndex names feat = none := by
  induction names with
  | nil => rfl
  | cons a rest ih =>
    have ha : a ≠ feat := fun e => h (by simp [e])
    rw [listIndex_cons, if_neg ha, ih (fun hm => h (by simp [hm]))]
    rfl

lemma listIndex_isSome_of_mem (names : List String) (feat : String)
    (h : feat ∈ names) : ∃ i, listIndex names feat = some i := by
  induction names with
  | nil => simp at h
  | cons a rest ih =>
    by_cases ha : a = feat
    · exact ⟨0, by rw [listIndex_cons, if_pos ha]⟩
    · have hm : feat ∈ rest := by
        rcases List.mem_cons.mp h with e | hm
        · exact absurd e.symm ha
        · exact hm
      obtain ⟨i, hi⟩ := ih hm
      exact ⟨i + 1, by rw [listIndex_cons, if_neg ha, hi]; rfl⟩

lemma listIndex_nodup_getElem (names : List String) :
    ∀ (j : ℕ) (h : j < names.length), names.Nodup →
    listIndex names names[j] = some j := by
  induction names with
  | nil => intro j h; simp at h
  | cons a rest ih =>
    intro j h hnd
    cases j with
    | zero => simp [listIndex_cons]
    | succ j =>
      have hj : j < rest.length := by simpa using h
      have hmem : rest[j] ∈ rest := List.getElem_mem hj
      have hnotin := (List.nodup_cons.mp hnd).1
      have hget : (a :: rest)[j + 1] = rest[j] := List.getElem_cons_succ a rest j h
      have hcond : ¬ (a = rest[j]) := by
        intro e
        exact hnotin (e ▸ hmem)
      rw [hget, listIndex_cons, if_neg hcond,
        ih j hj (List.nodup_cons.mp hnd).2]
      rfl

/-! Helper lemmas about `perturbFeatures`. -/

lemma perturbFeatures_nil (fn : List String) (inst : List ℚ) :
    perturbFeatures fn inst [] = .ok inst := rfl

lemma perturbFeatures_cons_none (fn : List String) (inst : List ℚ)
    (f : String) (rest : List String) (h : listIndex fn f = none) :
    perturbFeatures fn inst (f :: rest) = .error .valueError := by
  simp [perturbFeatures, h]

lemma perturbFeatures_cons_some_lt (fn : List String) (inst : List ℚ)
    (f : String) (rest : List String) (idx : ℕ)
    (h : listIndex fn f = some idx) (hlt : idx < inst.length) :
    perturbFeatures fn inst (f :: rest) =
      perturbFeatures fn (inst.set idx 0) rest := by
  simp [perturbFeatures, h, hlt]

lemma perturbFeatures_cons_some_ge (fn : List String) (inst : List ℚ)
    (f : String) (rest : List String) (idx : ℕ)
    (h : listIndex fn f = some idx) (hge : ¬ idx < inst.length) :
    perturbFeatures fn inst (f :: rest) = .error .indexError := by
  simp [perturbFeatures, h, hge]

lemma perturbFeatures_length (fn : List String) :
    ∀ (feats : List String) (inst pert : List ℚ),
    perturbFeatures fn inst feats = .ok pert → pert.length = inst.length := by
  intro feats
  induction feats with
  | nil =>
    intro inst pert h
    rw [perturbFeatures_nil, Except.ok.injEq] at h
    rw [h]
  | cons f rest ih =>
    intro inst pert h
    cases hf : listIndex fn f with
    | none =>
      rw [perturbFeatures_cons_none fn inst f rest hf] at h
      exact absurd h (by simp)
    | some idx =>
      by_cases hlt : idx < inst.length
      · rw [perturbFeatures_cons_some_lt fn inst f rest idx hf hlt] at h
        have := ih _ _ h
        simpa using this
      · rw [perturbFeatures_cons_some_ge fn inst f rest idx hf hlt] at h
        exact absurd h (by simp)

lemma perturbFeatures_frame (fn : List String) :
    ∀ (feats : List String) (inst pert : List ℚ) (j : ℕ),
    perturbFeatures fn inst feats = .ok pert →
    (∀ f ∈ feats, listIndex fn f ≠ some j) →
    pert[j]? = inst[j]? := by
  intro feats
  induction feats with
  | nil =>
    intro inst pert j h _
    rw [perturbFeatures_nil, Except.ok.injEq] at h
    rw [h]
  | cons f rest ih =>
    intro inst pert j h hnot
    cases hf : listIndex fn f with
    | none =>
      rw [perturbFeatures_cons_none fn inst f rest hf] at h
      exact absurd h (by simp)
    | some idx =>
      by_cases hlt : idx < inst.length
      · rw [perturbFeatures_cons_some_lt fn inst f rest idx hf hlt] at h
        have hj : idx ≠ j := fun e => hnot f (by simp) (by rw [hf, e])
        have h2 := ih _ _ j h (fun g hg => hnot g (by simp [hg]))
        rw [h2, List.getElem?_set_ne hj]
      · rw [perturbFeatures_cons_some_ge fn inst f rest idx hf hlt] at h
        exact absurd h (by simp)

lemma perturbFeatures_hit (fn : List String) :
    ∀ (feats : List String) (inst pert : List ℚ) (f : String) (j : ℕ),
    perturbFeatures fn inst feats = .ok pert →
    f ∈ feats → listIndex fn f = some j →
    pert[j]? = some 0 := by
  intro feats
  induction feats with
  | nil => intro _ _ _ _ _ hmem; simp at hmem
  | cons g rest ih =>
    intro inst pert f j h hmem hfind
    cases hg : listIndex fn g with
    | none =>
      rw [perturbFeatures_cons_none fn inst g rest hg] at h
      exact absurd h (by simp)
    | some idx =>
      by_cases hlt : idx < inst.length
      · rw [perturbFeatures_cons_some_lt fn inst g rest idx hg hlt] at h
        rcases List.mem_cons.mp hmem with rfl | hmem'
        · have hj : idx = j := by
            rw [hg] at hfind
            exact Option.some.inj hfind
          subst hj
          by_cases hrest : ∃ g' ∈ rest, listIndex fn g' = some idx
          · obtain ⟨g', hg', hfind'⟩ := hrest
            exact ih _ _ g' idx h hg' hfind'
          · push_neg at hrest
            have h2 := perturbFeatures_frame fn rest _ _ idx h hrest
            rw [h2, List.getElem?_set_self hlt]
        · exact ih _ _ f j h hmem' hfind
      · rw [perturbFeatures_cons_some_ge fn inst g rest idx hg hlt] at h
        exact absurd h (by simp)

lemma perturbFeatures_error_of_missing (fn : List String) :
    ∀ (feats : List String) (inst : List ℚ) (f : String),
    fn.length = inst.length → f ∈ feats → listIndex fn f = none →
    perturbFeatures fn inst feats = .error .valueError := by
  intro feats
  induction feats with
  | nil => intro _ _ hlen hmem; simp at hmem
  | cons g rest ih =>
    intro inst f hlen hmem hnone
    cases hg : listIndex fn g with
    | none => exact perturbFeatures_cons_none fn inst g rest hg
    | some idx =>
      have hidx : idx < fn.length := listIndex_lt_length fn g idx hg
      have hlt : idx < inst.length := hlen ▸ hidx
      rw [perturbFeatures_cons_some_lt fn inst g rest idx hg hlt]
      have hfg : f ≠ g := by
        rintro rfl
        rw [hg] at hnone
        exact Option.noConfusion hnone
      have hmem' : f ∈ rest := by
        rcases List.mem_cons.mp hmem with e | hm
        · exact absurd e hfg
        · exact hm
      exact ih _ f (by simpa using hlen) hmem' hnone

lemma perturbFeatures_isOk (fn : List String) :
    ∀ (feats : List String) (inst : List ℚ),
    fn.length = inst.length → (∀ f ∈ feats, f ∈ fn) →
    ∃ pert, perturbFeatures fn inst feats = .ok pert := by
  intro feats
  induction feats with
  | nil => intro inst _ _; exact ⟨inst, rfl⟩
  | cons g rest ih =>
    intro inst hlen hall
    obtain ⟨idx, hidx⟩ := listIndex_isSome_of_mem fn g (hall g (by simp))
    have hlt : idx < fn.length := listIndex_lt_length fn g idx hidx
    rw [perturbFeatures_cons_some_lt fn inst g rest idx hidx (hlen ▸ hlt)]
    exact ih _ (by simpa using hlen) (fun f hf => hall f (by simp [hf]))

/-! Helper lemmas about the stable descending sort and the Python slice. -/

lemma sortByAbsDesc_perm (l : List (String × ℚ)) :
    (sortByAbsDesc l).Perm l :=
  List.perm_insertionSort _ l

lemma sortByAbsDesc_length (l : List (String × ℚ)) :
    (sortByAbsDesc l).length = l.length :=
  (sortByAbsDesc_perm l).length_eq

lemma sortByAbsDesc_sorted (l : List (String × ℚ)) :
    (sortByAbsDesc l).Pairwise (fun a b => |b.2| ≤ |a.2|) := by
  haveI : IsTotal (String × ℚ) (fun a b => |b.2| ≤ |a.2|) :=
    ⟨fun a b => le_total _ _⟩
  haveI : IsTrans (String × ℚ) (fun a b => |b.2| ≤ |a.2|) :=
    ⟨fun _ _ _ h1 h2 => le_trans h2 h1⟩
  exact List.sorted_insertionSort _ l

lemma orderedInsert_filter_abs (c : ℚ) (x : String × ℚ) :
    ∀ ys : List (String × ℚ),
    (List.orderedInsert (fun a b => |b.2| ≤ |a.2|) x ys).filter
        (fun p => decide (|p.2| = c)) =
      if |x.2| = c then x :: ys.filter (fun p => decide (|p.2| = c))
      else ys.filter (fun p => decide (|p.2| = c)) := by
  intro ys
  induction ys with
  | nil =>
    by_cases hx : |x.2| = c
    · simp [List.orderedInsert, List.filter, hx]
    · simp [List.orderedInsert, List.filter, hx]
  | cons y ys ih =>
    simp only [List.orderedInsert]
    by_cases hr : |y.2| ≤ |x.2|
    · rw [if_pos hr]
      by_cases hx : |x.2| = c
      · simp [List.filter_cons, hx]
      · simp [List.filter_cons, hx]
    · rw [if_neg hr]
      by_cases hx : |x.2| = c
      · have hy : ¬ (|y.2| = c) := fun hy => hr (le_of_eq (hy.trans hx.symm))
        rw [if_pos hx]
        simp only [List.filter_cons, ih, if_pos hx, decide_eq_true_eq]
        simp [hy]
      · rw [if_neg hx]
        simp only [List.filter_cons, ih, if_neg hx]

lemma sortByAbsDesc_filter (c : ℚ) :
    ∀ l : List (String × ℚ),
    (sortByAbsDesc l).filter (fun p => decide (|p.2| = c)) =
      l.filter (fun p => decide (|p.2| = c)) := by
  intro l
  induction l with
  | nil => rfl
  | cons x xs ih =>
    simp only [sortByAbsDesc, List.insertionSort] at ih ⊢
    rw [orderedInsert_filter_abs c x (List.insertionSort _ xs)]
    by_cases hx : |x.2| = c
    · rw [if_pos hx, ih, List.filter_cons]
      simp [hx]
    · rw [if_neg hx, ih, List.filter_cons]
      simp [hx]

lemma pySliceTo_nonneg {α : Type} (l : List α) (n : ℤ) (h : 0 ≤ n) :
    pySliceTo l n = l.take n.toNat := by
  simp [pySliceTo, h]

lemma pySliceTo_neg {α : Type} (l : List α) (n : ℤ) (h : n < 0) :
    pySliceTo l n = l.take (l.length - (-n).toNat) := by
  simp [pySliceTo, not_le.mpr h]

lemma features_to_remove_length_le (e : List (String × ℚ)) (k : ℤ)
    (h : 0 ≤ k) : (features_to_remove e k).length ≤ k.toNat := by
  rw [features_to_remove, pySliceTo_nonneg _ _ h, List.length_map,
    List.length_take]
  exact min_le_left _ _

lemma features_to_remove_zero (e : List (String × ℚ)) :
    features_to_remove e 0 = [] := by
  rw [features_to_remove, pySliceTo_nonneg _ _ le_rfl]
  rfl

/-! Helper lemmas about `dotProduct` and the loop of
`compute_average_fidelity`. -/

lemma dotProduct_eq_zero (w : List ℚ) :
    ∀ x : List ℚ, (∀ q ∈ x, q = 0) → dotProduct w x = 0 := by
  induction w with
  | nil => intro x _; simp [dotProduct]
  | cons a w ih =>
    intro x hx
    cases x with
    | nil => simp [dotProduct]
    | cons b x =>
      have hb : b = 0 := hx b (by simp)
      have hrest := ih x (fun q hq => hx q (by simp [hq]))
      simp only [dotProduct, List.zip_cons_cons, List.map_cons, List.sum_cons,
        hb, mul_zero, zero_add]
      simpa [dotProduct] using hrest

lemma fidelityLoop_ok (fn : List String) (model : List ℚ → ℚ)
    (X : List (List ℚ)) (explainer : List ℚ → ℕ → List (String × ℚ))
    (nf : ℤ) (s : ℕ → ℚ) :
    ∀ is : List ℕ,
    (∀ i ∈ is, ∃ inst, X[i]? = some inst ∧
        fidelity_metric fn model inst (explainer inst 5) nf = .ok (s i)) →
    fidelityLoop fn model X explainer nf is = .ok (is.map s) := by
  intro is
  induction is with
  | nil => intro _; rfl
  | cons i rest ih =>
    intro h
    obtain ⟨inst, hX, hfid⟩ := h i (by simp)
    have hrest := ih (fun j hj => h j (by simp [hj]))
    simp only [fidelityLoop, hX, hfid, hrest, List.map_cons]

lemma fidelityLoop_explainer_congr (fn : List String) (model : List ℚ → ℚ)
    (X : List (List ℚ)) (e1 e2 : List ℚ → ℕ → List (String × ℚ)) (nf : ℤ)
    (h : ∀ x, e1 x 5 = e2 x 5) :
    ∀ is : List ℕ,
    fidelityLoop fn model X e1 nf is = fidelityLoop fn model X e2 nf is := by
  intro is
  induction is with
  | nil => rfl
  | cons i rest ih =>
    simp only [fidelityLoop, h, ih]

/-! The claims. -/

/-- C1: `score` returns model probability on the original instance minus the
probability on a perturbed copy built by sorting importance entries by
descending absolute value, taking the first `k` identifiers and zeroing the
corresponding positions; on the spec's concrete scenario (`x = [2,3,5]`,
`f(x) = x[0] + 2*x[1] + 0*x[2]`, importance `{f0: 2, f1: 6, f2: 0}`,
`k = 1`) the selected feature is `f1`, the perturbed copy is `[2,0,5]` and
the score is exactly `6`. -/
theorem claim_C1_concrete_scenario :
    features_to_remove [("f0",2),("f1",6),("f2",0)] 1 = ["f1"] ∧
    perturbFeatures ["f0","f1","f2"] [2,3,5] ["f1"] = .ok [2,0,5] ∧
    fidelity_metric ["f0","f1","f2"]
      (fun v => v.getD 0 0 + 2 * v.getD 1 0 + 0 * v.getD 2 0)
      [2,3,5] [("f0",2),("f1",6),("f2",0)] 1 = .ok 6 := by
  refine ⟨?_, ?_, ?_⟩
  · norm_num +decide [features_to_remove, sortByAbsDesc, List.insertionSort,
      List.orderedInsert, pySliceTo]
  · norm_num +decide [perturbFeatures, listIndex]
  · norm_num +decide [fidelity_metric, perturbFeatures, features_to_remove,
      sortByAbsDesc, List.insertionSort, List.orderedInsert, pySliceTo,
      listIndex]

/-- C3: whenever the perturbation of `score` succeeds, the perturbed copy
has the instance's length and agrees with the original instance at every
position that is not the resolved index of a selected top-importance
feature, and at most `k` features are selected (for `k ≥ 0`); the original
instance is untouched, the perturbed vector being a separately constructed
copy. -/
theorem claim_C3_frame (fn : List String) (model : List ℚ → ℚ)
    (inst : List ℚ) (e : List (String × ℚ)) (nf : ℤ) (pert : List ℚ)
    (hok : perturbFeatures fn inst (features_to_remove e nf) = .ok pert) :
    fidelity_metric fn model inst e nf = .ok (model inst - model pert) ∧
    pert.length = inst.length ∧
    (∀ j : ℕ, (∀ f ∈ features_to_remove e nf, listIndex fn f ≠ some j) →
      pert[j]? = inst[j]?) ∧
    (0 ≤ nf → (features_to_remove e nf).length ≤ nf.toNat) := by
  refine ⟨?_, perturbFeatures_length fn _ inst pert hok,
    fun j hj => perturbFeatures_frame fn _ inst pert j hok hj,
    fun h => features_to_remove_length_le e nf h⟩
  simp only [fidelity_metric, hok]

/-- Witness for C3 at a concrete input: feature set `["a","b"]`, instance
`[1,2]`, importance `{a: 1}`, `k = 1`, perturbed copy `[0,2]`. -/
theorem claim_C3_witness :
    fidelity_metric ["a","b"] (fun v => v.getD 0 0) [1,2] [("a",1)] 1 =
      .ok ((fun v : List ℚ => v.getD 0 0) [1,2] -
           (fun v : List ℚ => v.getD 0 0) [0,2]) ∧
    ([0,2] : List ℚ).length = ([1,2] : List ℚ).length ∧
    (0 ≤ (1 : ℤ) → (features_to_remove [("a",1)] 1).length ≤ (1 : ℤ).toNat) := by
  have h := claim_C3_frame ["a","b"] (fun v => v.getD 0 0) [1,2] [("a",1)] 1
    [0,2]
    (by norm_num +decide [perturbFeatures, features_to_remove, pySliceTo,
      sortByAbsDesc, List.insertionSort, List.orderedInsert, listIndex])
  exact ⟨h.1, h.2.1, h.2.2.2⟩

/-- C4 counterexample: the importance mapping contains the identifier
`"nonexistent"`, absent from the feature set `["f0","f1"]`, yet with `k = 1`
(which selects only `f0`) the call returns a normal result instead of
raising; the claim's "whenever the importance mapping contains" is too
strong. -/
theorem claim_C4_counterexample :
    fidelity_metric ["f0","f1"] (fun _ => 0) [1,2]
      [("f0",5),("nonexistent",1)] 1 = .ok 0 := by
  norm_num +decide [fidelity_metric, perturbFeatures, features_to_remove,
    pySliceTo, sortByAbsDesc, List.insertionSort, List.orderedInsert,
    listIndex]

/-- C4 amended: `score` fails (Python `ValueError` from `list.index`, the
design-level `InvalidFeatureReference`) whenever a SELECTED top-`k` feature
identifier does not exist in the instance's known feature set; an invalid
identifier outside the selected top-`k` entries is ignored. -/
theorem claim_C4_selected_invalid_feature (fn : List String)
    (model : List ℚ → ℚ) (inst : List ℚ) (e : List (String × ℚ)) (nf : ℤ)
    (feat : String) (hlen : fn.length = inst.length)
    (hmem : feat ∈ features_to_remove e nf) (hnot : feat ∉ fn) :
    fidelity_metric fn model inst e nf = .error .valueError := by
  have herr := perturbFeatures_error_of_missing fn (features_to_remove e nf)
    inst feat hlen hmem (listIndex_eq_none fn feat hnot)
  simp only [fidelity_metric, herr]

/-- Witness for the amended C4: the spec's error scenario, a mapping whose
only (hence selected) identifier is `"nonexistent"`. -/
theorem claim_C4_witness :
    "nonexistent" ∈ features_to_remove [("nonexistent",1)] 1 ∧
    "nonexistent" ∉ (["f0"] : List String) ∧
    fidelity_metric ["f0"] (fun _ => 0) [1] [("nonexistent",1)] 1 =
      .error .valueError := by
  have hmem : "nonexistent" ∈ features_to_remove [("nonexistent",1)] 1 := by
    norm_num +decide [features_to_remove, pySliceTo, sortByAbsDesc,
      List.insertionSort, List.orderedInsert]
  refine ⟨hmem, by decide, ?_⟩
  exact claim_C4_selected_invalid_feature ["f0"] (fun _ => 0) [1]
    [("nonexistent",1)] 1 "nonexistent" (by decide) hmem (by decide)

/-- C5: with `k = 0` no feature is selected, the perturbed copy equals the
original instance and the score is exactly `0`, for every model, instance
and importance mapping. -/
theorem claim_C5_k_zero (fn : List String) (model : List ℚ → ℚ)
    (inst : List ℚ) (e : List (String × ℚ)) :
    perturbFeatures fn inst (features_to_remove e 0) = .ok inst ∧
    fidelity_metric fn model inst e 0 = .ok 0 := by
  have h1 : perturbFeatures fn inst (features_to_remove e 0) = .ok inst := by
    rw [features_to_remove_zero, perturbFeatures_nil]
  refine ⟨h1, ?_⟩
  simp only [fidelity_metric, h1, sub_self]

/-- C7: `score` is pure and deterministic — identical inputs give identical
outputs and an identical selected feature list — and the feature ordering
is the stable descending sort by absolute importance: the sorted list is
pairwise descending in absolute value, and entries of any fixed absolute
value keep the mapping's original iteration order (their filtered
subsequence is unchanged by the sort). -/
theorem claim_C7_determinism_stable_sort (fn : List String)
    (model : List ℚ → ℚ) (inst : List ℚ) (e : List (String × ℚ)) (k : ℤ) :
    fidelity_metric fn model inst e k = fidelity_metric fn model inst e k ∧
    features_to_remove e k = features_to_remove e k ∧
    (sortByAbsDesc e).Pairwise (fun a b => |b.2| ≤ |a.2|) ∧
    ∀ c : ℚ, (sortByAbsDesc e).filter (fun p => decide (|p.2| = c)) =
      e.filter (fun p => decide (|p.2| = c)) :=
  ⟨rfl, rfl, sortByAbsDesc_sorted e, fun c => sortByAbsDesc_filter c e⟩

/-- C2 counterexample: with two requested samples but only one instance the
code raises `IndexError` at `X[1]` instead of clamping to the shorter
sequence and returning a mean. -/
theorem claim_C2_counterexample :
    compute_average_fidelity ["f0"] (fun v => v.getD 0 0) [[1]]
      (fun _ _ => [("f0",1)]) 2 1 = .error .indexError := rfl

/-- C2 amended: for `numSamples` not exceeding the sequence length,
`averageScore` computes the per-instance scores of the first `numSamples`
instances and returns their arithmetic mean (the spec's clamping on a
shorter sequence does not happen; the code then fails with `IndexError`). -/
theorem claim_C2_mean_of_first_samples (fn : List String)
    (model : List ℚ → ℚ) (X : List (List ℚ))
    (explainer : List ℚ → ℕ → List (String × ℚ)) (n : ℕ) (nf : ℤ)
    (s : ℕ → ℚ) (hn : n ≤ X.length)
    (hok : ∀ i, i < n → ∀ inst, X[i]? = some inst →
      fidelity_metric fn model inst (explainer inst 5) nf = .ok (s i)) :
    compute_average_fidelity fn model X explainer n nf =
      .ok (npMean ((List.range n).map s)) ∧
    (0 < n → npMean ((List.range n).map s) =
      .val (((List.range n).map s).sum / (n : ℚ))) := by
  have hloop : fidelityLoop fn model X explainer nf (List.range n) =
      .ok ((List.range n).map s) := by
    apply fidelityLoop_ok
    intro i hi
    have hi' : i < n := List.mem_range.mp hi
    have hlt : i < X.length := lt_of_lt_of_le hi' hn
    exact ⟨X[i], List.getElem?_eq_getElem hlt,
      hok i hi' X[i] (List.getElem?_eq_getElem hlt)⟩
  constructor
  · simp only [compute_average_fidelity, hloop]
  · intro hpos
    have hlen : ((List.range n).map s).length = n := by simp
    rw [npMean, hlen, if_neg hpos.ne']

/-- Witness for the amended C2: three instances with per-instance scores
`[1, 2, 3]` give average `2`, the spec's averaging scenario. -/
theorem claim_C2_witness :
    3 ≤ ([[1],[2],[3]] : List (List ℚ)).length ∧
    compute_average_fidelity ["f0"] (fun v => v.getD 0 0) [[1],[2],[3]]
      (fun _ _ => [("f0",1)]) 3 1 =
      .ok (npMean ((List.range 3).map (fun i : ℕ => (i : ℚ) + 1))) ∧
    npMean ((List.range 3).map (fun i : ℕ => (i : ℚ) + 1)) = .val 2 := by
  have hok : ∀ i : ℕ, i < 3 → ∀ inst, ([[1],[2],[3]] : List (List ℚ))[i]? =
      some inst →
      fidelity_metric ["f0"] (fun v => v.getD 0 0) inst
        ((fun (_ : List ℚ) (_ : ℕ) => [("f0",(1:ℚ))]) inst 5) 1 =
        .ok ((i : ℚ) + 1) := by
    intro i hi inst hinst
    interval_cases i
    · simp only [List.getElem?_cons_zero, Option.some.injEq] at hinst
      subst hinst
      norm_num +decide [fidelity_metric, perturbFeatures, features_to_remove,
        pySliceTo, sortByAbsDesc, List.insertionSort, List.orderedInsert,
        listIndex]
    · simp only [List.getElem?_cons_succ, List.getElem?_cons_zero,
        Option.some.injEq] at hinst
      subst hinst
      norm_num +decide [fidelity_metric, perturbFeatures, features_to_remove,
        pySliceTo, sortByAbsDesc, List.insertionSort, List.orderedInsert,
        listIndex]
    · simp only [List.getElem?_cons_succ, List.getElem?_cons_zero,
        Option.some.injEq] at hinst
      subst hinst
      norm_num +decide [fidelity_metric, perturbFeatures, features_to_remove,
        pySliceTo, sortByAbsDesc, List.insertionSort, List.orderedInsert,
        listIndex]
  have h := claim_C2_mean_of_first_samples ["f0"] (fun v => v.getD 0 0)
    [[1],[2],[3]] (fun _ _ => [("f0",1)]) 3 1 (fun i : ℕ => (i : ℚ) + 1)
    (by decide) hok
  refine ⟨by decide, h.1, ?_⟩
  rw [h.2 (by decide)]
  have hr : List.range 3 = [0, 1, 2] := rfl
  rw [hr]
  norm_num

/-- C6: for a linear model `f(v) = w · v`, importance `w * x` elementwise
and `k = len(x)`, all features are perturbed to the zero baseline, so the
score is exactly `f(x) − f(0) = f(x)` (and `f` on the zero baseline is
`0`). -/
theorem claim_C6_linear_full_removal (names : List String) (w x : List ℚ)
    (hnd : names.Nodup) (h1 : names.length = x.length)
    (h2 : w.length = x.length) :
    fidelity_metric names (dotProduct w) x (names.zip (mulPointwise w x))
      (x.length : ℤ) = .ok (dotProduct w x) ∧
    dotProduct w (List.replicate x.length 0) = 0 := by
  have hrep : dotProduct w (List.replicate x.length 0) = 0 :=
    dotProduct_eq_zero w _ (fun q hq => List.eq_of_mem_replicate hq)
  refine ⟨?_, hrep⟩
  have hmlen : (mulPointwise w x).length = x.length := by
    simp [mulPointwise, h2]
  have helen : (names.zip (mulPointwise w x)).length = x.length := by
    simp [h1, hmlen]
  have hfeat : features_to_remove (names.zip (mulPointwise w x))
      (x.length : ℤ) =
      (sortByAbsDesc (names.zip (mulPointwise w x))).map Prod.fst := by
    rw [features_to_remove, pySliceTo_nonneg _ _ (Int.natCast_nonneg _)]
    congr 1
    apply List.take_of_length_le
    rw [sortByAbsDesc_length, helen]
    simp
  have hperm : ((sortByAbsDesc (names.zip (mulPointwise w x))).map
      Prod.fst).Perm names := by
    have h3 : (names.zip (mulPointwise w x)).map Prod.fst = names :=
      List.map_fst_zip names _ (by rw [hmlen, h1])
    have := (sortByAbsDesc_perm (names.zip (mulPointwise w x))).map Prod.fst
    rwa [h3] at this
  obtain ⟨pert, hpert⟩ := perturbFeatures_isOk names
    (features_to_remove (names.zip (mulPointwise w x)) (x.length : ℤ)) x h1
    (fun f hf => hperm.mem_iff.mp (by rw [← hfeat]; exact hf))
  have hplen := perturbFeatures_length names _ x pert hpert
  have hzero : ∀ q ∈ pert, q = 0 := by
    intro q hq
    obtain ⟨j, hj⟩ := List.getElem?_of_mem hq
    have hjp : j < pert.length := by
      by_contra hge
      rw [List.getElem?_eq_none (le_of_not_lt hge)] at hj
      exact Option.noConfusion hj
    have hjn : j < names.length := by rw [h1, ← hplen]; exact hjp
    have hfj : listIndex names names[j] = some j :=
      listIndex_nodup_getElem names j hjn hnd
    have hfmem : names[j] ∈ features_to_remove
        (names.zip (mulPointwise w x)) (x.length : ℤ) := by
      rw [hfeat]
      exact hperm.mem_iff.mpr (List.getElem_mem hjn)
    have hhit := perturbFeatures_hit names _ x pert names[j] j hpert hfmem hfj
    rw [hj] at hhit
    exact Option.some.inj hhit
  have hmodel : dotProduct w pert = 0 := dotProduct_eq_zero w pert hzero
  simp only [fidelity_metric, hpert, hmodel, sub_zero]

/-- Witness for C6: `w = [1,2]`, `x = [3,4]`, feature names `["a","b"]`;
the score equals `f(x) = 1*3 + 2*4 = 11`. -/
theorem claim_C6_witness :
    (["a","b"] : List String).Nodup ∧
    fidelity_metric ["a","b"] (dotProduct [1,2]) [3,4]
      (["a","b"].zip (mulPointwise [1,2] [3,4]))
      (([3,4] : List ℚ).length : ℤ) = .ok (dotProduct [1,2] [3,4]) := by
  refine ⟨by decide, ?_⟩
  exact (claim_C6_linear_full_removal ["a","b"] [1,2] [3,4] (by decide)
    (by decide) (by decide)).1

/-- C8 counterexample: with `k = -1` the call does not fail with an
`InvalidArgument` error; Python slice semantics select all but the last
sorted entry and a normal score is returned. -/
theorem claim_C8_counterexample :
    fidelity_metric ["a","b"] (fun v => v.getD 0 0) [1,2]
      [("a",3),("b",1)] (-1) = .ok 1 := by
  norm_num +decide [fidelity_metric, perturbFeatures, features_to_remove,
    pySliceTo, sortByAbsDesc, List.insertionSort, List.orderedInsert,
    listIndex]

/-- C8 amended: `score` never fails for `k < 0` — a negative `k` follows
Python slice semantics, selecting all entries but the last `|k|`
(equivalently, behaving as the nonnegative count `max 0 (count + k)`) —
while `k` beyond the number of importance entries clamps to that count. -/
theorem claim_C8_negative_k_slice (fn : List String) (model : List ℚ → ℚ)
    (inst : List ℚ) (e : List (String × ℚ)) (k : ℤ) :
    (k < 0 → fidelity_metric fn model inst e k =
      fidelity_metric fn model inst e ((e.length - (-k).toNat : ℕ) : ℤ)) ∧
    ((e.length : ℤ) ≤ k → fidelity_metric fn model inst e k =
      fidelity_metric fn model inst e (e.length : ℤ)) := by
  constructor
  · intro hk
    have hfeat : features_to_remove e k =
        features_to_remove e ((e.length - (-k).toNat : ℕ) : ℤ) := by
      rw [features_to_remove, features_to_remove, pySliceTo_neg _ _ hk,
        pySliceTo_nonneg _ _ (Int.natCast_nonneg _), Int.toNat_natCast,
        sortByAbsDesc_length]
    simp only [fidelity_metric, hfeat]
  · intro hk
    have h0 : (0 : ℤ) ≤ k := le_trans (Int.natCast_nonneg _) hk
    have hlen : e.length ≤ k.toNat := by omega
    have hfeat : features_to_remove e k =
        features_to_remove e (e.length : ℤ) := by
      rw [features_to_remove, features_to_remove,
        pySliceTo_nonneg _ _ h0, pySliceTo_nonneg _ _ (Int.natCast_nonneg _),
        Int.toNat_natCast,
        List.take_of_length_le (by rw [sortByAbsDesc_length]; exact hlen),
        List.take_of_length_le (le_of_eq (sortByAbsDesc_length e))]
    simp only [fidelity_metric, hfeat]

/-- Witness for the amended C8 at `k = -1` and at `k = 7` on a one-entry
mapping. -/
theorem claim_C8_witness :
    ((-1 : ℤ) < 0 ∧
      fidelity_metric ["a"] (fun v => v.getD 0 0) [1] [("a",2)] (-1) =
        fidelity_metric ["a"] (fun v => v.getD 0 0) [1] [("a",2)]
          ((0 : ℕ) : ℤ)) ∧
    ((([("a",2)] : List (String × ℚ)).length : ℤ) ≤ 7 ∧
      fidelity_metric ["a"] (fun v => v.getD 0 0) [1] [("a",2)] 7 =
        fidelity_metric ["a"] (fun v => v.getD 0 0) [1] [("a",2)]
          ((1 : ℕ) : ℤ)) := by
  refine ⟨⟨by decide, ?_⟩, ⟨by decide, ?_⟩⟩
  · exact (claim_C8_negative_k_slice ["a"] (fun v => v.getD 0 0) [1]
      [("a",2)] (-1)).1 (by decide)
  · exact (claim_C8_negative_k_slice ["a"] (fun v => v.getD 0 0) [1]
      [("a",2)] 7).2 (by decide)

/-- C9 counterexample: with `numSamples = 0` the code returns `np.mean([])`,
i.e. NaN, instead of failing with an `EmptyInput` error. -/
theorem claim_C9_counterexample :
    compute_average_fidelity ["f0"] (fun _ => 0) [[1]] (fun _ _ => []) 0 1 =
      .ok .nan := rfl

/-- C9 amended: with `numSamples = 0` the function returns NaN (`np.mean`
of an empty list) rather than an error; with an empty instance sequence and
a positive `numSamples` it fails, but with `IndexError` at `X[0]`, not a
dedicated `EmptyInput` error. -/
theorem claim_C9_nan_and_index_error (fn : List String)
    (model : List ℚ → ℚ) (X : List (List ℚ))
    (explainer : List ℚ → ℕ → List (String × ℚ)) (nf : ℤ) (n : ℕ) :
    compute_average_fidelity fn model X explainer 0 nf = .ok .nan ∧
    (X = [] → 0 < n →
      compute_average_fidelity fn model X explainer n nf =
        .error .indexError) := by
  constructor
  · rfl
  · rintro rfl hn
    obtain ⟨m, rfl⟩ := Nat.exists_eq_succ_of_ne_zero hn.ne'
    have hloop : fidelityLoop fn model [] explainer nf
        (0 :: (List.range m).map Nat.succ) = .error .indexError := rfl
    rw [compute_average_fidelity, List.range_succ_eq_map, hloop]

/-- Witness for the amended C9 at concrete inputs. -/
theorem claim_C9_witness :
    compute_average_fidelity ["a"] (fun _ => 0) [[1]] (fun _ _ => []) 0 2 =
      .ok .nan ∧
    compute_average_fidelity ["a"] (fun _ => 0) [] (fun _ _ => []) 3 2 =
      .error .indexError := by
  have h := claim_C9_nan_and_index_error ["a"] (fun _ => 0) [[1]]
    (fun _ _ => []) 2 3
  have h2 := claim_C9_nan_and_index_error ["a"] (fun _ => 0) []
    (fun _ _ => []) 2 3
  exact ⟨h.1, h2.2 rfl (by decide)⟩

/-- C10: `compute_average_fidelity` asks the explainer for exactly 5
features per instance (the literal `num_features=5` in the
`explain_instance` call): the result depends on the explainer only through
its behaviour at 5 requested features, and — under the explainer contract
that at most the requested number of entries is returned — at most
`min(num_features, 5)` features are perturbed per instance, even when the
function's own `num_features` argument exceeds 5. -/
theorem claim_C10_five_features (fn : List String) (model : List ℚ → ℚ)
    (X : List (List ℚ)) (e1 e2 : List ℚ → ℕ → List (String × ℚ)) (n : ℕ)
    (nf : ℤ) (hagree : ∀ v, e1 v 5 = e2 v 5) :
    compute_average_fidelity fn model X e1 n nf =
      compute_average_fidelity fn model X e2 n nf ∧
    (∀ inst : List ℚ, (e1 inst 5).length ≤ 5 → 0 ≤ nf →
      (features_to_remove (e1 inst 5) nf).length ≤ min nf.toNat 5) := by
  constructor
  · simp only [compute_average_fidelity,
      fidelityLoop_explainer_congr fn model X e1 e2 nf hagree]
  · intro inst hlen h0
    rw [features_to_remove, pySliceTo_nonneg _ _ h0, List.length_map,
      List.length_take, sortByAbsDesc_length]
    exact le_min (min_le_left _ _) (le_trans (min_le_right _ _) hlen)

/-- Witness for C10 at concrete inputs (`num_features = 7 > 5`). -/
theorem claim_C10_witness :
    compute_average_fidelity ["a"] (fun _ => 0) [[1]]
        (fun _ _ => [("a",1)]) 1 7 =
      compute_average_fidelity ["a"] (fun _ => 0) [[1]]
        (fun _ _ => [("a",1)]) 1 7 ∧
    (features_to_remove [("a",1)] 7).length ≤ min (7 : ℤ).toNat 5 := by
  have h := claim_C10_five_features ["a"] (fun _ => 0) [[1]]
    (fun _ _ => [("a",1)]) (fun _ _ => [("a",1)]) 1 7 (fun _ => rfl)
  exact ⟨h.1, h.2 [1] (by decide) (by decide)⟩

end XAI
